import Mathlib

/-!
Verification of the aesthetic-gradient extension (aesthetic_clip.py).

Shallow embedding notes:
* Image feature vectors and the embedding store are modelled over the rationals
  so that everything on the generation path is executable; the spherical
  interpolation and the per-request conditioning adjustment need the
  transcendental functions sin/arccos/sqrt and are modelled over the reals.
* A folder is modelled as the list of its file names; the vision encoder, the
  tokenizer and the text tower are host capabilities and enter as function
  parameters, exactly as the spec treats them (interfaces only).
* Python exceptions are surfaced as an Except value built from the error
  taxonomy of the spec (section 7); a raised exception leaves every piece of
  global state exactly as it was, which the embedding makes explicit.
-/

/-- Error taxonomy of the spec, section 7, plus the raw shape error that
torch.cat raises when the tensors of a concatenation disagree in a
non-concatenated dimension. -/
inductive TError where
  | NotFound
  | EmptyInput
  | EmptyBatch
  | ShapeMismatch
  deriving DecidableEq

deriving instance DecidableEq for Except

abbrev Vecq := List ℚ

abbrev Tensor2Q := List Vecq

/-- Python list.endswith on code points: the last suffix.length characters
equal the suffix (clamped drop reproduces endswith on short strings). -/
def endsWithChars (l suffix : List Char) : Bool :=
  decide (l.drop (l.length - suffix.length) = suffix)

/-- Source check_is_valid_image_file: filename.lower().endswith

Lowercasing is per code point (Char.toLower), which agrees with Python for
the ASCII extensions being tested. -/
def check_is_valid_image_file (filename : String) : Bool :=
  endsWithChars (filename.data.map Char.toLower) ".png".data ||
  endsWithChars (filename.data.map Char.toLower) ".jpg".data ||
  endsWithChars (filename.data.map Char.toLower) ".jpeg".data ||
  endsWithChars (filename.data.map Char.toLower) ".gif".data ||
  endsWithChars (filename.data.map Char.toLower) ".tiff".data ||
  endsWithChars (filename.data.map Char.toLower) ".webp".data

/-- Source get_all_images_in_folder: files of the folder whose names pass
check_is_valid_image_file (os.path.join and the isfile test are absorbed into
modelling the folder as its list of file names). -/
def get_all_images_in_folder (folder : List String) : List String :=
  folder.filter (fun f => check_is_valid_image_file f)

/-- Chunking loop of iter_to_batched, written with a fuel argument (any fuel
at least the list length gives the loop's behaviour) so that the recursion is
structural and the kernel can evaluate it. -/
def iterChunksF {α : Type} (n : ℕ) : ℕ → List α → List (List α)
  | _, [] => []
  | 0, a :: rest => [a :: rest]
  | fuel + 1, a :: rest =>
    (a :: rest.take (n - 1)) :: iterChunksF n fuel (rest.drop (n - 1))

/-- Chunking loop of iter_to_batched for a positive chunk size: repeatedly
split off the next n elements until the iterator is exhausted. -/
def iterChunks {α : Type} (n : ℕ) (l : List α) : List (List α) :=
  iterChunksF n l.length l

/-- Source iter_to_batched: batches of size n, last batch possibly short.
With n = 0 itertools.islice yields an empty chunk at once and the generator
stops, producing no batches at all. -/
def iter_to_batched {α : Type} (n : ℕ) (l : List α) : List (List α) :=
  if n = 0 then [] else iterChunks n l

/-- Batch loop of generate_imgs_embd: before each batch the host interrupt
flag is polled (modelled as the value the flag has at the i-th poll); once it
reads true the loop breaks, otherwise the batch is pushed through the vision
encoder, giving one feature row per image. -/
def run_batches (enc : String → Vecq) (interrupted : ℕ → Bool) :
    List (List String) → ℕ → List Tensor2Q
  | [], _ => []
  | b :: rest, i =>
    if interrupted i then []
    else (b.map enc) :: run_batches enc interrupted rest (i + 1)

/-- torch.cat(embs, dim=0): concatenation of the per-batch feature tensors
along the image axis. torch.cat raises on an empty tensor list, which in
generate_imgs_embd happens exactly when no batch completed, i.e. on the
spec's EmptyInput condition. -/
def catDim0 (embs : List Tensor2Q) : Except TError Tensor2Q :=
  match embs with
  | [] => Except.error TError.EmptyInput
  | t :: rest => Except.ok ((t :: rest).flatten)

/-- Column-wise sum of a [rows, D] tensor (the reduction behind mean(dim=0)). -/
def sumDim0 (t : Tensor2Q) : Vecq :=
  t.foldr (fun r acc => List.zipWith (fun x y => x + y) r acc)
    (List.replicate (t.headD []).length 0)

/-- mean(dim=0, keepdim=True): the arithmetic mean of the rows, kept as a
[1, D] tensor. -/
def meanDim0 (t : Tensor2Q) : Tensor2Q :=
  [(sumDim0 t).map (fun x => x / (t.length : ℚ))]

/-- Source generate_imgs_embd: enumerate the images of the folder, encode
them in batches with cooperative interruption, concatenate, average, and
persist the result in the store under the given name (torch.save followed by
the rescan).  A raised exception propagates and nothing is persisted. -/
def generate_imgs_embd (enc : String → Vecq) (interrupted : ℕ → Bool)
    (name : String) (folder : List String) (batch_size : ℕ)
    (store : List (String × Tensor2Q)) :
    Except TError (List (String × Tensor2Q)) :=
  let images := get_all_images_in_folder folder
  let embs := run_batches enc interrupted (iter_to_batched batch_size images) 0
  match catDim0 embs with
  | Except.error e => Except.error e
  | Except.ok allRows => Except.ok ((name, meanDim0 allRows) :: store)

/-- State of the embedding store after a generation attempt: on an exception
the store is exactly what it was. -/
def store_after (enc : String → Vecq) (interrupted : ℕ → Bool)
    (name : String) (folder : List String) (batch_size : ℕ)
    (store : List (String × Tensor2Q)) : List (String × Tensor2Q) :=
  match generate_imgs_embd enc interrupted name folder batch_size store with
  | Except.ok s => s
  | Except.error _ => store

/-- Python str.replace(".pt", ""): left-to-right removal of every
non-overlapping occurrence of ".pt", written with a fuel argument so that the
kernel can evaluate it. -/
def stripPtFuel : ℕ → List Char → List Char
  | 0, l => l
  | _ + 1, [] => []
  | n + 1, c :: rest =>
    if c = '.' ∧ rest.take 2 = ['p', 't'] then stripPtFuel n (rest.drop 2)
    else c :: stripPtFuel n rest

/-- f.replace(".pt", "") on a file name. -/
def stripPt (s : String) : String :=
  ⟨stripPtFuel s.data.length s.data⟩

/-- Source update_aesthetic_embeddings: the ordered keys of the rebuilt store
index, the sentinel "None" first (OrderedDict(**{"None": None}, **found)),
then the .pt files of the embeddings directory in listing order with the
".pt" stripped from their names. -/
def update_aesthetic_embeddings (files : List String) : List String :=
  "None" :: (files.filter (fun f => endsWithChars f.data ".pt".data)).map stripPt

/-- Listing shown by the UI dropdown and by its refresh callback:
sorted(aesthetic_embeddings.keys()), i.e. a plain lexicographic sort of all
key names, the sentinel included. -/
def embedding_listing (files : List String) : List String :=
  List.insertionSort (fun a b => a ≤ b) (update_aesthetic_embeddings files)

abbrev Tensor2R := List (List ℝ)

abbrev Tensor3R := List (List (List ℝ))

/-- Row dot product, the per-row result of (a * b).sum(1). -/
def dotR (a b : List ℝ) : ℝ := (List.zipWith (fun x y => x * y) a b).sum

/-- Euclidean norm of one row, the per-row result of torch.norm(t, dim=1). -/
noncomputable def rowNorm (a : List ℝ) : ℝ :=
  Real.sqrt ((a.map (fun x => x * x)).sum)

/-- Row-wise L2 normalization, t / t.norm(dim=-1, keepdim=True). -/
noncomputable def normRows (t : Tensor2R) : Tensor2R :=
  t.map (fun r => r.map (fun x => x / rowNorm r))

/-- Elementwise difference of two [rows, D] tensors. -/
def sub2 (a b : Tensor2R) : Tensor2R :=
  List.zipWith (fun ra rb => List.zipWith (fun x y => x - y) ra rb) a b

/-- One row of the source slerp at rank 2 ([rows, D] operands, where dim=1 of
the torch code is the embedding axis): normalize the two rows, take the angle
omega between them through arccos of the dot product, and combine the
original rows with the sin((1-t)*omega)/sin(omega) and sin(t*omega)/sin(omega)
coefficients.  Exactly as in the source there is no guard for sin(omega) = 0;
the real-number embedding of that division follows the Lean convention
x / 0 = 0 (in floating point it produces NaN). -/
noncomputable def slerpRow (lr hr : List ℝ) (val : ℝ) : List ℝ :=
  let ln := lr.map (fun x => x / rowNorm lr)
  let hn := hr.map (fun x => x / rowNorm hr)
  let omega := Real.arccos (dotR ln hn)
  let so := Real.sin omega
  List.zipWith
    (fun l h => (Real.sin ((1 - val) * omega) / so) * l +
      (Real.sin (val * omega) / so) * h)
    lr hr

/-- Source slerp on [rows, D] operands (the shape at which the optimization
target rotation calls it): row-wise slerpRow. -/
noncomputable def slerp (low high : Tensor2R) (val : ℝ) : Tensor2R :=
  List.zipWith (fun lr hr => slerpRow lr hr val) low high

/-- Linear interpolation (1-t)*low + t*high of spec section 4.3, the fallback
blend the spec prescribes for degenerate rows and for use_slerp = false. -/
def lerp (low high : Tensor2R) (val : ℝ) : Tensor2R :=
  List.zipWith
    (fun lr hr => List.zipWith (fun l h => (1 - val) * l + val * h) lr hr)
    low high

/-- Normalization applied by load_image_embs when a stored embedding is
loaded (self.image_embs /= self.image_embs.norm(dim=-1, keepdim=True)). -/
noncomputable def load_image_embs (stored : Tensor2R) : Tensor2R :=
  normRows stored

/-- Column-wise sum of a [rows, D] real tensor (dim-0 reduction). -/
def colSumR (t : Tensor2R) : List ℝ :=
  t.foldr (fun r acc => List.zipWith (fun x y => x + y) r acc)
    (List.replicate (t.headD []).length 0)

/-- Source slerp applied at rank 3, as the final z/zn blend does: for a
[B, S, D] operand torch.norm(dim=1) and .sum(1) reduce the sequence axis,
giving per-(batch, channel) angles that broadcast back over the sequence
axis.  This models one batch element ([S, D] matrices). -/
noncomputable def slerpSeq (low high : Tensor2R) (val : ℝ) : Tensor2R :=
  let nLow := (colSumR (low.map (fun r => r.map (fun x => x * x)))).map Real.sqrt
  let nHigh := (colSumR (high.map (fun r => r.map (fun x => x * x)))).map Real.sqrt
  let lowN := low.map (fun r => List.zipWith (fun x n => x / n) r nLow)
  let highN := high.map (fun r => List.zipWith (fun x n => x / n) r nHigh)
  let omega := (colSumR (List.zipWith
    (fun ra rb => List.zipWith (fun x y => x * y) ra rb) lowN highN)).map Real.arccos
  let so := omega.map Real.sin
  List.zipWith
    (fun lr hr => List.zipWith
      (fun lh ws => Real.sin ((1 - val) * ws.1) / ws.2 * lh.1 +
        Real.sin (val * ws.1) / ws.2 * lh.2)
      (lr.zip hr) (omega.zip so))
    low high

/-- Source slerp on the [B, S, D] conditioning tensors (z and zn). -/
noncomputable def slerp3 (low high : Tensor3R) (val : ℝ) : Tensor3R :=
  List.zipWith (fun lb hb => slerpSeq lb hb val) low high

/-- The z * (1 - weight) + zn * weight blend of the non-slerp branch,
elementwise on [B, S, D] tensors (the operands have equal shapes on every
path that reaches the blend). -/
def lerp3 (z zn : Tensor3R) (w : ℝ) : Tensor3R :=
  List.zipWith
    (fun zb znb => List.zipWith
      (fun zr znr => List.zipWith (fun x y => x * (1 - w) + y * w) zr znr)
      zb znb)
    z zn

/-- z.shape[1] of a [B, S, D] tensor. -/
def shape1 (z : Tensor3R) : ℕ := (z.headD []).length

/-- Python slice t[a:b] along the leading dimension. -/
def sliceDim0 {α : Type} (t : List α) (a b : ℕ) : List α :=
  (t.drop a).take (b - a)

/-- torch.concat(ts, 1): concatenation along dim 1.  torch raises when the
tensors disagree in the non-concatenated dim 0 (and on an empty list); the
call site in the source always passes a non-empty list. -/
def concatDim1 (ts : List Tensor3R) : Except TError Tensor3R :=
  match ts with
  | [] => Except.error TError.EmptyInput
  | t :: rest =>
    if rest.all (fun u => u.length = t.length) then
      Except.ok ((t :: rest).foldr
        (fun u acc => List.zipWith (fun a b => a ++ b) u acc)
        (List.replicate t.length []))
    else Except.error TError.ShapeMismatch

/-- Host capabilities consumed by the per-request core (spec section 6): the
baseline conditioning routine process_tokens, tokenizer constants, the layer
selection option, the tokenizer, the text tower of a model with parameters of
type P (get_text_features, last hidden state, a selected hidden state, the
final layer norm), and the Adam optimizer with internal state of type A whose
step updates only the parameters it was built over.  M is the host's opaque
type of per-token multipliers. -/
structure Host (P A M : Type) where
  process_tokens : List (List ℕ) → M → Tensor3R
  bos_token_id : ℕ
  eos_token_id : ℕ
  use_old_emphasis_implementation : Bool
  CLIP_stop_at_last_layers : ℕ
  tokenize : String → List (List ℕ)
  get_text_features : P → List (List ℕ) → Tensor2R
  hidden_state_at : P → List (List ℕ) → ℕ → Tensor3R
  final_layer_norm : P → Tensor3R → Tensor3R
  last_hidden_state : P → List (List ℕ) → Tensor3R
  adam_init : ℚ → A
  adam_step : Tensor2R → List (List ℕ) → P × A → P × A

/-- Session state of the source class AestheticCLIP: configuration scalars,
the skip flag, and the loaded (already normalized) target embedding with its
name. -/
structure AestheticCLIP where
  skip : Bool
  aesthetic_steps : ℕ
  aesthetic_weight : ℚ
  aesthetic_lr : ℚ
  slerp : Bool
  aesthetic_text_negative : Bool
  aesthetic_slerp_angle : ℚ
  aesthetic_imgs_text : String
  image_embs_name : Option String
  image_embs : Tensor2R

/-- Source AestheticCLIP.__call__.  Returns the conditioning result (or the
raised exception) together with the global state the call leaves behind: the
shared base tower parameters and the session's target embedding.  The
optimization operates on a value copy of the base parameters
(copy.deepcopy), threading the Adam state, and none of the branches writes
to the base parameters or to image_embs. -/
noncomputable def AestheticCLIP_call {P A M : Type} (h : Host P A M)
    (base : P) (s : AestheticCLIP)
    (remade_batch_tokens : List (List ℕ)) (multipliers : M) :
    Except TError Tensor3R × (P × Tensor2R) :=
  let z := h.process_tokens remade_batch_tokens multipliers
  if s.skip = false ∧ s.aesthetic_steps ≠ 0 ∧ s.aesthetic_lr ≠ 0 ∧
      s.aesthetic_weight ≠ 0 ∧ s.image_embs_name ≠ none then
    let tokens :=
      if h.use_old_emphasis_implementation = false then
        remade_batch_tokens.map
          (fun x => h.bos_token_id :: (x.take 75 ++ [h.eos_token_id]))
      else remade_batch_tokens
    let model := base
    let img_embs :=
      if s.aesthetic_imgs_text ≠ "" then
        let text_embs_2 := h.get_text_features model (h.tokenize s.aesthetic_imgs_text)
        let text_embs_2 :=
          if s.aesthetic_text_negative = true then
            normRows (sub2 s.image_embs text_embs_2)
          else text_embs_2
        slerp s.image_embs text_embs_2 ((s.aesthetic_slerp_angle : ℝ))
      else s.image_embs
    let trained := Nat.iterate (fun st => h.adam_step img_embs tokens st)
      s.aesthetic_steps (model, h.adam_init s.aesthetic_lr)
    let model2 := trained.1
    let zn :=
      if h.CLIP_stop_at_last_layers > 1 then
        h.final_layer_norm model2
          (h.hidden_state_at model2 tokens h.CLIP_stop_at_last_layers)
      else h.last_hidden_state model2 tokens
    match concatDim1 ((List.range (max (shape1 z / 77) 1)).map
        (fun i => sliceDim0 zn (77 * i) (77 * (i + 1)))) with
    | Except.error e => (Except.error e, (base, s.image_embs))
    | Except.ok znc =>
      let zf :=
        if s.slerp = true then slerp3 z znc ((s.aesthetic_weight : ℝ))
        else lerp3 z znc ((s.aesthetic_weight : ℝ))
      (Except.ok zf, (base, s.image_embs))
  else (Except.ok z, (base, s.image_embs))

/-- Trivial host instantiation used for concrete evaluations: unit
parameters, empty tensors everywhere, last-layer selection. -/
def trivHost : Host Unit Unit Unit :=
  { process_tokens := fun _ _ => []
    bos_token_id := 49406
    eos_token_id := 49407
    use_old_emphasis_implementation := false
    CLIP_stop_at_last_layers := 1
    tokenize := fun _ => []
    get_text_features := fun _ _ => []
    hidden_state_at := fun _ _ _ => []
    final_layer_norm := fun _ t => t
    last_hidden_state := fun _ _ => []
    adam_init := fun _ => ()
    adam_step := fun _ _ st => st }

/-- Host whose baseline conditioning has a 154-token sequence axis (a
two-chunk prompt) while the adjusted hidden state has the usual 77, with one
prompt in the batch. -/
def twoChunkHost : Host Unit Unit Unit :=
  { process_tokens := fun _ _ => [List.replicate 154 [(0 : ℝ)]]
    bos_token_id := 49406
    eos_token_id := 49407
    use_old_emphasis_implementation := false
    CLIP_stop_at_last_layers := 1
    tokenize := fun _ => []
    get_text_features := fun _ _ => []
    hidden_state_at := fun _ _ _ => []
    final_layer_norm := fun _ t => t
    last_hidden_state := fun _ _ => [List.replicate 77 [(0 : ℝ)]]
    adam_init := fun _ => ()
    adam_step := fun _ _ st => st }

/-- Session configured so that the optimization path runs: one step, nonzero
learning rate and weight, a configured embedding, no rotation text, linear
blending. -/
def activeSession : AestheticCLIP :=
  { skip := false
    aesthetic_steps := 1
    aesthetic_weight := 1
    aesthetic_lr := 1
    slerp := false
    aesthetic_text_negative := false
    aesthetic_slerp_angle := 0
    aesthetic_imgs_text := ""
    image_embs_name := some "e"
    image_embs := [[(1 : ℝ)]] }

/-! Helper lemmas. -/

theorem iterChunksF_flatten {α : Type} (n : ℕ) :
    ∀ (fuel : ℕ) (l : List α), l.length ≤ fuel →
      (iterChunksF n fuel l).flatten = l := by
  intro fuel
  induction fuel with
  | zero =>
    intro l hl
    cases l with
    | nil => rfl
    | cons a rest => simp at hl
  | succ fuel ih =>
    intro l hl
    cases l with
    | nil => rfl
    | cons a rest =>
      have hl2 : rest.length ≤ fuel := by
        simp only [List.length_cons] at hl
        omega
      simp only [iterChunksF, List.flatten_cons]
      rw [ih (rest.drop (n - 1)) (by simp only [List.length_drop]; omega)]
      simp [List.take_append_drop]

theorem iter_to_batched_flatten {α : Type} (n : ℕ) (hn : 0 < n) (l : List α) :
    (iter_to_batched n l).flatten = l := by
  unfold iter_to_batched
  rw [if_neg (Nat.pos_iff_ne_zero.mp hn)]
  exact iterChunksF_flatten n l.length l le_rfl

theorem iter_to_batched_nil {α : Type} (n : ℕ) :
    iter_to_batched n ([] : List α) = [] := by
  unfold iter_to_batched iterChunks
  split <;> rfl

theorem iter_to_batched_ne_nil {α : Type} (n : ℕ) (hn : 0 < n) (l : List α)
    (hl : l ≠ []) : iter_to_batched n l ≠ [] := by
  unfold iter_to_batched iterChunks
  rw [if_neg (Nat.pos_iff_ne_zero.mp hn)]
  cases l with
  | nil => exact absurd rfl hl
  | cons a rest => simp [iterChunksF]

theorem run_batches_false (enc : String → Vecq) (interrupted : ℕ → Bool)
    (hfalse : ∀ i, interrupted i = false) :
    ∀ (bs : List (List String)) (i : ℕ),
      run_batches enc interrupted bs i = bs.map (fun b => b.map enc) := by
  intro bs
  induction bs with
  | nil => intro i; rfl
  | cons b rest ih =>
    intro i
    simp only [run_batches, hfalse i, List.map_cons]
    rw [ih (i + 1)]
    simp

theorem run_batches_succ (enc : String → Vecq) (interrupted : ℕ → Bool) :
    ∀ (bs : List (List String)) (i : ℕ),
      run_batches enc interrupted bs (i + 1) =
        run_batches enc (fun t => interrupted (t + 1)) bs i := by
  intro bs
  induction bs with
  | nil => intro i; rfl
  | cons b rest ih =>
    intro i
    simp only [run_batches]
    rw [ih (i + 1)]

theorem run_batches_take (enc : String → Vecq) :
    ∀ (bs : List (List String)) (interrupted : ℕ → Bool) (k : ℕ),
      (∀ i, i < k → interrupted i = false) → interrupted k = true →
      run_batches enc interrupted bs 0 =
        (bs.take k).map (fun b => b.map enc) := by
  intro bs
  induction bs with
  | nil => intro interrupted k h1 h2; simp [run_batches]
  | cons b rest ih =>
    intro interrupted k h1 h2
    cases k with
    | zero => simp [run_batches, h2]
    | succ k =>
      have h0 : interrupted 0 = false := h1 0 (Nat.succ_pos k)
      simp only [run_batches, h0, Bool.false_eq_true, if_false, List.take_succ_cons,
        List.map_cons]
      rw [show (0 : ℕ) + 1 = 1 from rfl, run_batches_succ enc interrupted rest 0]
      rw [ih (fun t => interrupted (t + 1)) k
        (fun i hi => h1 (i + 1) (by omega)) h2]

theorem catDim0_ne_nil (ts : List Tensor2Q) (h : ts ≠ []) :
    catDim0 ts = Except.ok ts.flatten := by
  cases ts with
  | nil => exact absurd rfl h
  | cons t rest => rfl

theorem zipWith_add_replicate_zero (v : Vecq) :
    List.zipWith (fun x y => x + y) v (List.replicate v.length 0) = v := by
  induction v with
  | nil => rfl
  | cons x rest ih => simp [List.replicate_succ, ih]

theorem zipWith_add_map_mul (c : ℚ) (v : Vecq) :
    List.zipWith (fun x y => x + y) v (v.map (fun x => c * x)) =
      v.map (fun x => (c + 1) * x) := by
  induction v with
  | nil => rfl
  | cons x rest ih => simp [ih]; ring

theorem foldr_add_replicate (v : Vecq) :
    ∀ m : ℕ,
      (List.replicate m v).foldr
          (fun r acc => List.zipWith (fun x y => x + y) r acc)
          (List.replicate v.length 0) =
        v.map (fun x => (m : ℚ) * x) := by
  intro m
  induction m with
  | zero =>
    show List.replicate v.length 0 = v.map (fun x => ((0 : ℕ) : ℚ) * x)
    simp [List.map_const']
  | succ m ih =>
    rw [List.replicate_succ, List.foldr_cons, ih, zipWith_add_map_mul]
    congr 1
    funext x
    push_cast
    ring

theorem meanDim0_identical (t : Tensor2Q) (v : Vecq) (ht : t ≠ [])
    (hall : ∀ r ∈ t, r = v) : meanDim0 t = [v] := by
  obtain ⟨m, hm⟩ : ∃ m, t.length = m + 1 := by
    cases t with
    | nil => exact absurd rfl ht
    | cons r rest => exact ⟨rest.length, rfl⟩
  have hrep : t = List.replicate (m + 1) v := by
    rw [← hm]
    exact List.eq_replicate_iff.mpr ⟨rfl, hall⟩
  subst hrep
  have hsum : sumDim0 (List.replicate (m + 1) v) =
      v.map (fun x => ((m : ℚ) + 1) * x) := by
    rw [sumDim0,
      show (List.replicate (m + 1) v).headD [] = v from by
        rw [List.replicate_succ, List.headD_cons]]
    rw [List.replicate_succ, List.foldr_cons, foldr_add_replicate v m,
      zipWith_add_map_mul]
  rw [meanDim0, hsum, List.length_replicate, List.map_map]
  have hc : ((m : ℚ) + 1) ≠ 0 := by positivity
  congr 1
  have hmap : ∀ x ∈ v,
      ((fun x => x / (((m + 1) : ℕ) : ℚ)) ∘ fun x => ((m : ℚ) + 1) * x) x = x := by
    intro x _
    simp only [Function.comp_apply]
    push_cast
    rw [mul_comm, mul_div_assoc, div_self hc, mul_one]
  rw [List.map_congr_left hmap]
  exact List.map_id' v

theorem concatDim1_error (ts : List Tensor3R) (e : TError)
    (h : concatDim1 ts = Except.error e) :
    e = TError.EmptyInput ∨ e = TError.ShapeMismatch := by
  cases ts with
  | nil =>
    simp only [concatDim1, Except.error.injEq] at h
    exact Or.inl h.symm
  | cons t rest =>
    simp only [concatDim1] at h
    split at h
    · exact absurd h (by simp)
    · simp only [Except.error.injEq] at h
      exact Or.inr h.symm

/-! Claim theorems. -/

/-- C4: for every folder containing no file whose name ends
(case-insensitively) in png/jpg/jpeg/gif/tiff/webp, embedding generation
fails with the EmptyInput error (the empty concatenation raised before
anything is saved) and the embedding store is left unchanged. -/
theorem generate_empty_folder_emptyInput (enc : String → Vecq)
    (interrupted : ℕ → Bool) (name : String) (folder : List String)
    (batch_size : ℕ) (store : List (String × Tensor2Q))
    (hinv : ∀ f ∈ folder, check_is_valid_image_file f = false) :
    generate_imgs_embd enc interrupted name folder batch_size store =
        Except.error TError.EmptyInput ∧
      store_after enc interrupted name folder batch_size store = store := by
  have himg : get_all_images_in_folder folder = [] := by
    unfold get_all_images_in_folder
    exact List.filter_eq_nil_iff.mpr (fun a ha => by simp [hinv a ha])
  have hgen : generate_imgs_embd enc interrupted name folder batch_size store =
      Except.error TError.EmptyInput := by
    simp only [generate_imgs_embd, himg, iter_to_batched_nil]
    rfl
  exact ⟨hgen, by unfold store_after; rw [hgen]⟩

/-- C4 witness: a folder holding only a text file makes generation fail with
EmptyInput and leaves the store as it was. -/
theorem generate_empty_folder_emptyInput_witness :
    generate_imgs_embd (fun _ => [1]) (fun _ => false) "style" ["notes.txt"] 2
        [("x", [[3]])] = Except.error TError.EmptyInput ∧
      store_after (fun _ => [1]) (fun _ => false) "style" ["notes.txt"] 2
        [("x", [[3]])] = [("x", [[3]])] :=
  generate_empty_folder_emptyInput (fun _ => [1]) (fun _ => false) "style"
    ["notes.txt"] 2 [("x", [[3]])] (by decide)

/-- C5 counterexample: the claim quantifies over every k, but when the
interrupt flag is already set at the first poll (k = 0 of m = 3 batches) the
operation does fail: no batch completes and the empty concatenation raises
instead of producing a mean. -/
theorem generate_interrupt_at_zero_fails :
    generate_imgs_embd (fun _ => [1]) (fun _ => true) "e"
      ["a.png", "b.png", "c.png"] 1 [] = Except.error TError.EmptyInput := by
  decide

/-- C5 (amended): during embedding generation the interrupt flag is checked
before each batch, and when the flag first reads true at the k-th poll with
k ≥ 1, the operation succeeds and persists the arithmetic mean of exactly
the images in the k completed batches. -/
theorem generate_interrupt_partial_mean (enc : String → Vecq)
    (interrupted : ℕ → Bool) (name : String) (folder : List String)
    (batch_size : ℕ) (store : List (String × Tensor2Q)) (k : ℕ)
    (hbs : 0 < batch_size)
    (hne : get_all_images_in_folder folder ≠ [])
    (hk : 1 ≤ k)
    (h1 : ∀ i, i < k → interrupted i = false)
    (h2 : interrupted k = true) :
    generate_imgs_embd enc interrupted name folder batch_size store =
      Except.ok ((name,
        meanDim0 ((((iter_to_batched batch_size
          (get_all_images_in_folder folder)).take k).flatten).map enc)) ::
        store) := by
  have hbatch : iter_to_batched batch_size (get_all_images_in_folder folder) ≠ [] :=
    iter_to_batched_ne_nil batch_size hbs _ hne
  have htake : (iter_to_batched batch_size
      (get_all_images_in_folder folder)).take k ≠ [] := by
    cases hb : iter_to_batched batch_size (get_all_images_in_folder folder) with
    | nil => exact absurd hb hbatch
    | cons b bs =>
      cases k with
      | zero => omega
      | succ k => simp
  simp only [generate_imgs_embd]
  rw [run_batches_take enc _ interrupted k h1 h2]
  rw [catDim0_ne_nil _ (by simp only [ne_eq, List.map_eq_nil_iff]; exact htake)]
  rw [← List.map_flatten]

/-- C5 witness: three one-image batches, flag set at the second poll, gives
the mean of just the first batch's image vector. -/
theorem generate_interrupt_partial_mean_witness :
    generate_imgs_embd (fun f => [(f.length : ℚ)]) (fun i => decide (1 ≤ i))
      "e" ["a.png", "bc.png", "d.png"] 1 [] = Except.ok [("e", [[5]])] := by
  have h := generate_interrupt_partial_mean (fun f => [(f.length : ℚ)])
    (fun i => decide (1 ≤ i)) "e" ["a.png", "bc.png", "d.png"] 1 [] 1
    (by decide) (by decide) (by decide) (by decide) (by decide)
  rw [h]
  have hx : (((iter_to_batched 1
      (get_all_images_in_folder ["a.png", "bc.png", "d.png"])).take 1).flatten).map
        (fun f => ([(f.length : ℚ)] : Vecq)) = [[5]] := by decide
  rw [hx]
  simp [meanDim0, sumDim0]

/-- C6: for every non-empty image folder the persisted embedding is the
arithmetic mean over the image axis of the per-image encoder features,
saved without normalization; in particular a folder of identical images
persists the per-image vector itself. -/
theorem generate_mean_unnormalized (enc : String → Vecq)
    (interrupted : ℕ → Bool) (name : String) (folder : List String)
    (batch_size : ℕ) (store : List (String × Tensor2Q))
    (hbs : 0 < batch_size)
    (hne : get_all_images_in_folder folder ≠ [])
    (hint : ∀ i, interrupted i = false) :
    generate_imgs_embd enc interrupted name folder batch_size store =
        Except.ok ((name,
          meanDim0 ((get_all_images_in_folder folder).map enc)) :: store) ∧
      ∀ v : Vecq, (∀ f ∈ get_all_images_in_folder folder, enc f = v) →
        meanDim0 ((get_all_images_in_folder folder).map enc) = [v] := by
  constructor
  · have hbatch : iter_to_batched batch_size (get_all_images_in_folder folder) ≠ [] :=
      iter_to_batched_ne_nil batch_size hbs _ hne
    simp only [generate_imgs_embd]
    rw [run_batches_false enc interrupted hint]
    rw [catDim0_ne_nil _ (by simp [hbatch])]
    rw [← List.map_flatten, iter_to_batched_flatten batch_size hbs]
  · intro v hv
    refine meanDim0_identical _ v (by simp [hne]) ?_
    intro r hr
    obtain ⟨f, hf, rfl⟩ := List.mem_map.mp hr
    exact hv f hf

/-- C6 witness: two images with the same (non-unit) feature vector persist
exactly that vector. -/
theorem generate_mean_unnormalized_witness :
    generate_imgs_embd (fun _ => [2, 4]) (fun _ => false) "style"
      ["a.png", "b.png"] 1 [] = Except.ok [("style", [[2, 4]])] := by
  have h := generate_mean_unnormalized (fun _ => ([2, 4] : Vecq))
    (fun _ => false) "style" ["a.png", "b.png"] 1 []
    (by decide) (by decide) (fun _ => rfl)
  rw [h.1, h.2 [2, 4] (fun _ _ => rfl)]

/-- C1: if the session's skip flag is set, or steps is 0, or the learning
rate is 0, or the weight is 0, or no target embedding name is configured,
the call returns the host-provided conditioning unchanged; in particular
weight = 0 forces the unchanged result regardless of steps. -/
theorem apply_noop_fast_path {P A M : Type} (h : Host P A M) (base : P)
    (s : AestheticCLIP) (tokens : List (List ℕ)) (mult : M)
    (hskip : s.skip = true ∨ s.aesthetic_steps = 0 ∨ s.aesthetic_lr = 0 ∨
      s.aesthetic_weight = 0 ∨ s.image_embs_name = none) :
    (AestheticCLIP_call h base s tokens mult).1 =
      Except.ok (h.process_tokens tokens mult) := by
  have hc : ¬ (s.skip = false ∧ s.aesthetic_steps ≠ 0 ∧ s.aesthetic_lr ≠ 0 ∧
      s.aesthetic_weight ≠ 0 ∧ s.image_embs_name ≠ none) := by
    rcases hskip with h1 | h1 | h1 | h1 | h1 <;> simp [h1]
  simp only [AestheticCLIP_call]
  rw [if_neg hc]

/-- C1 witness: weight 0 with steps 1 returns the conditioning unchanged. -/
theorem apply_noop_fast_path_witness :
    (AestheticCLIP_call trivHost ()
        { activeSession with aesthetic_weight := 0 } [[3]] ()).1 =
      Except.ok [] :=
  apply_noop_fast_path trivHost () _ [[3]] ()
    (Or.inr (Or.inr (Or.inr (Or.inl rfl))))

/-- C3: a call leaves the shared base tower parameters and the session's
target embedding exactly as they were — the optimizer steps thread only the
disposable per-request copy of the parameters. -/
theorem apply_preserves_base_and_target {P A M : Type} (h : Host P A M)
    (base : P) (s : AestheticCLIP) (tokens : List (List ℕ)) (mult : M) :
    (AestheticCLIP_call h base s tokens mult).2 = (base, s.image_embs) := by
  simp only [AestheticCLIP_call]
  split
  · split <;> rfl
  · rfl

set_option maxRecDepth 8000 in
/-- C8: on a two-chunk prompt (conditioning sequence length 154) the
reassembly slices zn along the batch axis, so the second slice is empty and
the dim-1 concatenation raises a shape error instead of returning a
conditioning tensor of the input's shape. -/
theorem apply_multichunk_shape_error :
    (AestheticCLIP_call twoChunkHost () activeSession [[1, 2]] ()).1 =
      Except.error TError.ShapeMismatch := rfl

/-- C9 counterexample: with steps = 1 and an empty token batch the call does
not fail with EmptyBatch — there is no emptiness check and the loop runs
vacuously, returning the (empty) conditioning. -/
theorem apply_empty_batch_no_emptyBatch :
    (AestheticCLIP_call trivHost () activeSession [] ()).1 = Except.ok [] ∧
      (AestheticCLIP_call trivHost () activeSession [] ()).1 ≠
        Except.error TError.EmptyBatch := by
  constructor
  · rfl
  · rw [show (AestheticCLIP_call trivHost () activeSession [] ()).1
        = Except.ok [] from rfl]
    simp

/-- C9 (amended): the call contains no empty-batch validation and can never
fail with EmptyBatch, whatever the session, host and token batch are; its
only raisable error is the shape error of the reassembly concatenation. -/
theorem apply_never_emptyBatch {P A M : Type} (h : Host P A M) (base : P)
    (s : AestheticCLIP) (tokens : List (List ℕ)) (mult : M) :
    (AestheticCLIP_call h base s tokens mult).1 ≠
      Except.error TError.EmptyBatch := by
  simp only [AestheticCLIP_call]
  split
  · split
    · next e heq =>
        rcases concatDim1_error _ e heq with h1 | h1 <;> simp [h1]
    · simp
  · simp

/-- C2: the claim says parallel or antiparallel rows fall back to linear
interpolation; in the source there is no such guard — at the antiparallel
input the divisor sin(omega) is exactly 0 and the division-by-zero artifact
(0 under the Lean convention, NaN in floats) replaces the claimed lerp
value. -/
theorem slerp_no_parallel_guard :
    slerp [[(1 : ℝ), 0]] [[(-1 : ℝ), 0]] (1 / 4) = [[0, 0]] ∧
      lerp [[(1 : ℝ), 0]] [[(-1 : ℝ), 0]] (1 / 4) = [[1 / 2, 0]] ∧
      ([[(0 : ℝ), 0]] : Tensor2R) ≠ [[1 / 2, 0]] := by
  refine ⟨?_, ?_, ?_⟩
  · have hd : dotR [(1 : ℝ) / rowNorm [1, 0], 0 / rowNorm [1, 0]]
        [(-1 : ℝ) / rowNorm [-1, 0], 0 / rowNorm [-1, 0]] = -1 := by
      have h1 : rowNorm [(1 : ℝ), 0] = 1 := by
        rw [rowNorm]; norm_num
      have h2 : rowNorm [(-1 : ℝ), 0] = 1 := by
        rw [rowNorm]; norm_num
      rw [h1, h2, dotR]
      norm_num
    simp only [slerp, slerpRow, List.zipWith_cons_cons, List.zipWith_nil_right,
      List.map_cons, List.map_nil]
    rw [hd, Real.arccos_neg_one, Real.sin_pi]
    norm_num
  · rw [lerp]
    norm_num
  · norm_num

/-- C7: slerp of a vector with itself is claimed to be the identity; in the
source the angle is 0, sin(0) = 0 is divided by, and the result degenerates
(0 under the Lean convention, NaN in floats) instead of returning the
vector. -/
theorem slerp_self_not_identity :
    slerp [[(0 : ℝ), 1]] [[(0 : ℝ), 1]] (1 / 2) = [[0, 0]] ∧
      ([[(0 : ℝ), 0]] : Tensor2R) ≠ [[0, 1]] := by
  constructor
  · have hd : dotR [(0 : ℝ) / rowNorm [0, 1], 1 / rowNorm [0, 1]]
        [(0 : ℝ) / rowNorm [0, 1], 1 / rowNorm [0, 1]] = 1 := by
      have h1 : rowNorm [(0 : ℝ), 1] = 1 := by
        rw [rowNorm]; norm_num
      rw [h1, dotR]
      norm_num
    simp only [slerp, slerpRow, List.zipWith_cons_cons, List.zipWith_nil_right,
      List.map_cons, List.map_nil]
    rw [hd, Real.arccos_one, Real.sin_zero]
    norm_num
  · norm_num

/-- C10 counterexample: with one stored embedding named Alpha, the listing is
plainly alphabetical and places Alpha before the sentinel "None", so the
sentinel is not always first. -/
theorem listing_sentinel_not_first :
    embedding_listing ["Alpha.pt"] = ["Alpha", "None"] ∧
      ("Alpha" : String) ≠ "None" := by
  constructor
  · have h0 : update_aesthetic_embeddings ["Alpha.pt"] = ["None", "Alpha"] := by
      decide
    rw [embedding_listing, h0]
    have hle : ¬ (("None" : String) ≤ "Alpha") := by
      rw [String.le_iff_toList_le]; decide
    simp [List.insertionSort, List.orderedInsert, hle]
  · decide

/-- C10 (amended): every listing of the embedding store is alphabetically
sorted over all names, the sentinel "None" included without special-casing,
and contains exactly the sentinel plus the stored names. -/
theorem listing_sorted_all_names (files : List String) :
    (embedding_listing files).Sorted (fun a b : String => a ≤ b) ∧
      (embedding_listing files).Perm (update_aesthetic_embeddings files) :=
  ⟨List.sorted_insertionSort _ _, List.perm_insertionSort _ _⟩

